import Mathlib

set_option maxRecDepth 10000

/-!
Verification of the Keycard Shell device-communication library.

Buffers (Node `Buffer`) are modeled as `List Nat`, one element per byte.
JavaScript numbers are modeled as `Nat` (with explicit `% 256` and `% 65536`
where the code writes fixed-width fields); the theorems carry the range
hypotheses under which the JS arithmetic does not overflow or go negative.
Fallible buffer reads (which throw `RangeError` in Node) return `Option`.
-/

namespace Shell

/-! ## Byte-level primitives -/

-- Buffer.writeUInt16BE: the two big-endian bytes of a value (value ≤ 0xffff).
def asUInt16BE (value : Nat) : List Nat :=
  [value / 256 % 256, value % 256]

-- Buffer.writeUInt32BE: the four big-endian bytes of a value (value ≤ 0xffffffff).
def asUInt32BE (value : Nat) : List Nat :=
  [value / 16777216 % 256, value / 65536 % 256, value / 256 % 256, value % 256]

-- Buffer.readUInt16BE(off): reads two bytes big-endian; none models the
-- RangeError thrown when fewer than two bytes exist at the offset.
def readUInt16BE (buf : List Nat) (off : Nat) : Option Nat :=
  match buf.drop off with
  | a :: b :: _ => some (a * 256 + b)
  | _ => none

-- Buffer.readUInt8(off).
def readUInt8 (buf : List Nat) (off : Nat) : Option Nat :=
  match buf.drop off with
  | a :: _ => some a
  | _ => none

-- Number.prototype.toString(16) / BigNumber.prototype.toString(16):
-- lowercase hex digits, no leading zeros, "0" for zero.
def natToHex (n : Nat) : String :=
  String.mk (Nat.toDigits 16 n)

/-! ## Status taxonomy (errors.ts) -/

-- The StatusCodes object, in declaration order (Object.keys order).
def StatusCodes : List (String × Nat) :=
  [ ("ACCESS_CONDITION_NOT_FULFILLED", 0x9804),
    ("ALGORITHM_NOT_SUPPORTED", 0x9484),
    ("CLA_NOT_SUPPORTED", 0x6e00),
    ("CODE_BLOCKED", 0x9840),
    ("CODE_NOT_INITIALIZED", 0x9802),
    ("COMMAND_INCOMPATIBLE_FILE_STRUCTURE", 0x6981),
    ("CONDITIONS_OF_USE_NOT_SATISFIED", 0x6985),
    ("CONTRADICTION_INVALIDATION", 0x9810),
    ("CONTRADICTION_SECRET_CODE_STATUS", 0x9808),
    ("CUSTOM_IMAGE_BOOTLOADER", 0x662f),
    ("CUSTOM_IMAGE_EMPTY", 0x662e),
    ("FILE_ALREADY_EXISTS", 0x6a89),
    ("FILE_NOT_FOUND", 0x9404),
    ("GP_AUTH_FAILED", 0x6300),
    ("HALTED", 0x6faa),
    ("INCONSISTENT_FILE", 0x9408),
    ("INCORRECT_DATA", 0x6a80),
    ("INCORRECT_LENGTH", 0x6700),
    ("INCORRECT_P1_P2", 0x6b00),
    ("INS_NOT_SUPPORTED", 0x6d00),
    ("DEVICE_NOT_ONBOARDED", 0x6d07),
    ("DEVICE_NOT_ONBOARDED_2", 0x6611),
    ("INVALID_KCV", 0x9485),
    ("INVALID_OFFSET", 0x9402),
    ("LICENSING", 0x6f42),
    ("LOCKED_DEVICE", 0x5515),
    ("MAX_VALUE_REACHED", 0x9850),
    ("MEMORY_PROBLEM", 0x9240),
    ("MISSING_CRITICAL_PARAMETER", 0x6800),
    ("NO_EF_SELECTED", 0x9400),
    ("NOT_ENOUGH_MEMORY_SPACE", 0x6a84),
    ("OK", 0x9000),
    ("PIN_REMAINING_ATTEMPTS", 0x63c0),
    ("REFERENCED_DATA_NOT_FOUND", 0x6a88),
    ("SECURITY_STATUS_NOT_SATISFIED", 0x6982),
    ("TECHNICAL_PROBLEM", 0x6f00),
    ("UNKNOWN_APDU", 0x6d02),
    ("USER_REFUSED_ON_DEVICE", 0x5501),
    ("NOT_ENOUGH_SPACE", 0x5102) ]

def getAltStatusMessage (code : Nat) : Option String :=
  match code with
  | 0x6700 => some "Incorrect length"
  | 0x6800 => some "Missing critical parameter"
  | 0x6982 => some "Security not satisfied (dongle locked or have invalid access rights)"
  | 0x6985 => some "Condition of use not satisfied (denied by the user?)"
  | 0x6a80 => some "Invalid data received"
  | 0x6b00 => some "Invalid parameter received"
  | 0x5515 => some "Locked device"
  | _ => if 0x6f00 ≤ code ∧ code ≤ 0x6fff then some "Internal error, please report" else none

-- The value thrown by `new TransportStatusError(statusCode)`: the constructor
-- rethrows a LockedDeviceError for LOCKED_DEVICE, otherwise builds a
-- TransportStatusError with message, statusText and statusCode.
inductive StatusError where
  | lockedDevice (message : String)
  | transportStatus (message : String) (statusText : String) (statusCode : Nat)
deriving DecidableEq, Repr

def mkTransportStatusError (statusCode : Nat) : StatusError :=
  let statusText :=
    ((StatusCodes.find? (fun p => p.2 == statusCode)).map Prod.fst).getD "UNKNOWN_ERROR"
  let smsg := (getAltStatusMessage statusCode).getD statusText
  let message := "Shell device: " ++ smsg ++ " (0x" ++ natToHex statusCode ++ ")"
  if statusCode = 0x5515 then .lockedDevice message
  else .transportStatus message statusText statusCode

/-! ## Transport.send (transport.ts) -/

inductive SendError where
  | dataLengthTooBig (len : Nat)   -- TransportError "DataLengthTooBig"
  | statusError (e : StatusError)  -- thrown by new TransportStatusError(sw)
  | rangeError                     -- out-of-bounds read of the status word
deriving DecidableEq, Repr

def defaultStatusList : List Nat := [0x9000]

-- The raw APDU handed to this.exchange: cla | ins | p1 | p2 | len(1) | data.
def sendApdu (cla ins p1 p2 : Nat) (data : List Nat) : List Nat :=
  [cla, ins, p1, p2] ++ [data.length] ++ data

-- Transport.send. The underlying this.exchange is modeled as a pure function
-- from the apdu to the device response; the second component of the result is
-- the list of raw exchanges actually performed, in order.
def send (cla ins p1 p2 : Nat) (data : List Nat) (statusList : List Nat)
    (exchange : List Nat → List Nat) : Except SendError (List Nat) × List (List Nat) :=
  if data.length ≥ 256 then
    (.error (.dataLengthTooBig data.length), [])
  else
    let apdu := sendApdu cla ins p1 p2 data
    let response := exchange apdu
    match readUInt16BE response (response.length - 2) with
    | none => (.error .rangeError, [apdu])
    | some sw =>
      if statusList.any (fun s => s == sw) then (.ok response, [apdu])
      else (.error (.statusError (mkTransportStatusError sw)), [apdu])

/-! ## Transport.exchangeAtomicImpl (transport.ts) -/

inductive AtomicError (ε : Type) where
  | raceCondition   -- TransportRaceCondition
  | inner (e : ε)   -- whatever the wrapped operation threw

-- One run of exchangeAtomicImpl. `busy` is whether exchangeBusyPromise is set
-- on entry; the wrapped operation f is modeled by its outcome. The unresponsive
-- timer only emits observational events and is not modeled. `busyAfter` is the
-- state of exchangeBusyPromise when the call settles; `opRan` records whether
-- f was invoked at all.
structure AtomicRun (ε α : Type) where
  result : Except (AtomicError ε) α
  busyAfter : Bool
  opRan : Bool

def exchangeAtomicImpl {ε α : Type} (busy : Bool) (f : Except ε α) : AtomicRun ε α :=
  if busy then
    ⟨.error .raceCondition, busy, false⟩
  else
    match f with
    | .ok v => ⟨.ok v, false, true⟩      -- finally: resolveBusy(); exchangeBusyPromise = null
    | .error e => ⟨.error (.inner e), false, true⟩

/-! ## HID framing (hid-framing.ts) -/

def hidTag : Nat := 0x05

structure ResponseAcc where
  data : List Nat
  dataLength : Nat
  sequence : Nat
deriving DecidableEq, Repr

def initialAcc : ResponseAcc := ⟨[], 0, 0⟩

inductive FramingError where
  | invalidChannel
  | invalidTag
  | invalidSequence
  | rangeError      -- out-of-bounds Buffer read (Node RangeError)
deriving DecidableEq, Repr

-- hidFraming(channel, packetSize).makeBlocks(apdu). Math.ceil(a / b) on
-- naturals with b > 0 is (a + b - 1) / b.
def makeBlocks (channel packetSize : Nat) (apdu : List Nat) : List (List Nat) :=
  let data := asUInt16BE apdu.length ++ apdu
  let blockSize := packetSize - 5
  let nbBlocks := (data.length + blockSize - 1) / blockSize
  let padded := data ++ List.replicate (nbBlocks * blockSize - data.length + 1) 0
  (List.range nbBlocks).map (fun i =>
    asUInt16BE channel ++ [hidTag] ++ asUInt16BE i ++
      ((padded.drop (i * blockSize)).take blockSize))

-- hidFraming(channel, packetSize).reduceResponse(acc, chunk).
def reduceResponse (channel : Nat) (acc : Option ResponseAcc) (chunk : List Nat) :
    Except FramingError ResponseAcc :=
  let a := acc.getD initialAcc
  match readUInt16BE chunk 0 with
  | none => .error .rangeError
  | some ch =>
    if ch ≠ channel then .error .invalidChannel
    else match readUInt8 chunk 2 with
      | none => .error .rangeError
      | some t =>
        if t ≠ hidTag then .error .invalidTag
        else match readUInt16BE chunk 3 with
          | none => .error .rangeError
          | some seq =>
            if seq ≠ a.sequence then .error .invalidSequence
            else match (if acc.isSome then some a.dataLength else readUInt16BE chunk 5) with
              | none => .error .rangeError
              | some dataLength =>
                let chunkData := chunk.drop (if acc.isSome then 5 else 7)
                let data := a.data ++ chunkData
                let data := if data.length > dataLength then data.take dataLength else data
                .ok ⟨data, dataLength, a.sequence + 1⟩

-- hidFraming(channel, packetSize).getReducedResult(acc).
def getReducedResult (acc : Option ResponseAcc) : Option (List Nat) :=
  match acc with
  | some a => if a.dataLength = a.data.length then some a.data else none
  | none => none

-- Feeding a sequence of packets through reduceResponse in order.
def reduceAll (channel : Nat) (acc : Option ResponseAcc) (chunks : List (List Nat)) :
    Except FramingError (Option ResponseAcc) :=
  match chunks with
  | [] => .ok acc
  | c :: rest =>
    match reduceResponse channel acc c with
    | .error e => .error e
    | .ok a => reduceAll channel (some a) rest

-- The framing round trip of the claim: make the blocks, feed them in order
-- starting from the empty accumulator, extract the reduced result.
def hidRoundTrip (channel packetSize : Nat) (apdu : List Nat) : Option (List Nat) :=
  match reduceAll channel none (makeBlocks channel packetSize apdu) with
  | .ok acc => getReducedResult acc
  | .error _ => none

/-! ## Chunked command encoders (index.ts, class Commands)

Each while-loop is modeled with an explicit fuel parameter standing for the
(possibly diverging) JS loop; `none` means the fuel ran out before the loop
guard `offset !== length` became false. Each emitted element is the pair
(p1, buffer) of one `transport.send` invocation. JS numbers are Nat here, so
the subtractions in the budget expressions agree with the source only under
the path-length bounds carried by the theorems. -/

-- The derivation-path header: splitPath count byte followed by each index
-- written with writeUInt32BE.
def pathHeader (paths : List Nat) : List Nat :=
  [paths.length] ++ paths.flatMap asUInt32BE

-- Commands.signEthTransaction's chunk loop (budget 150, header 1 + 4*n on the
-- first chunk, EIP-155 boundary-avoidance rule against vrsOffset).
def signTxChunks (fuel : Nat) (paths rawTx : List Nat) (vrsOffset offset : Nat) :
    Option (List (Nat × List Nat)) :=
  match fuel with
  | 0 => none
  | fuel + 1 =>
    if offset = rawTx.length then some []
    else
      let first := offset = 0
      let maxChunkSize := if first then 150 - 1 - paths.length * 4 else 150
      let chunkSize0 := if offset + maxChunkSize > rawTx.length then rawTx.length - offset
                        else maxChunkSize
      -- Make sure that the chunk doesn't end right on the EIP 155 marker if set
      let chunkSize := if vrsOffset ≠ 0 ∧ offset + chunkSize0 ≥ vrsOffset
                       then rawTx.length - offset else chunkSize0
      let buffer := if first then pathHeader paths ++ (rawTx.drop offset).take chunkSize
                    else (rawTx.drop offset).take chunkSize
      let p1 := if first then 0x00 else 0x80
      (signTxChunks fuel paths rawTx vrsOffset (offset + chunkSize)).map ((p1, buffer) :: ·)

-- Commands.sendChunks's loop (budget 255; first chunk carries the path header
-- and a 4-byte big-endian total length).
def sendChunksLoop (fuel : Nat) (paths message : List Nat) (offset : Nat) :
    Option (List (Nat × List Nat)) :=
  match fuel with
  | 0 => none
  | fuel + 1 =>
    if offset = message.length then some []
    else
      let maxChunkSize := if offset = 0 then 255 - 1 - paths.length * 4 - 4 else 255
      let chunkSize := if offset + maxChunkSize > message.length then message.length - offset
                       else maxChunkSize
      let buffer := if offset = 0 then
          pathHeader paths ++ asUInt32BE message.length ++ (message.drop offset).take chunkSize
        else (message.drop offset).take chunkSize
      let p1 := if offset = 0 then 0x00 else 0x80
      (sendChunksLoop fuel paths message (offset + chunkSize)).map ((p1, buffer) :: ·)

-- Commands.signPSBT's loop (budget 255; first chunk carries a 4-byte length).
def signPSBTChunks (fuel : Nat) (message : List Nat) (offset : Nat) :
    Option (List (Nat × List Nat)) :=
  match fuel with
  | 0 => none
  | fuel + 1 =>
    if offset = message.length then some []
    else
      let maxChunkSize := if offset = 0 then 255 - 4 else 255
      let chunkSize := if offset + maxChunkSize > message.length then message.length - offset
                       else maxChunkSize
      let buffer := if offset = 0 then
          asUInt32BE message.length ++ (message.drop offset).take chunkSize
        else (message.drop offset).take chunkSize
      let p1 := if offset = 0 then 0x00 else 0x80
      (signPSBTChunks fuel message (offset + chunkSize)).map ((p1, buffer) :: ·)

-- Commands.load's loop (constant 240-byte chunks; the 4-byte length header on
-- the first chunk rides on top of the budget).
def loadChunks (fuel : Nat) (data : List Nat) (offset : Nat) :
    Option (List (Nat × List Nat)) :=
  match fuel with
  | 0 => none
  | fuel + 1 =>
    if offset = data.length then some []
    else
      let maxChunkSize := 240
      let chunkSize := if offset + maxChunkSize > data.length then data.length - offset
                       else maxChunkSize
      let buffer := if offset = 0 then
          asUInt32BE data.length ++ (data.drop offset).take chunkSize
        else (data.drop offset).take chunkSize
      let p1 := if offset = 0 then 0x00 else 0x80
      (loadChunks fuel data (offset + chunkSize)).map ((p1, buffer) :: ·)

/-! ## EIP-712 structured-data transmitter (unnamed part_001) -/

-- A JSON-ish message value: an object with ordered entries (Object.entries
-- order = insertion order for the string keys used here), an array, or a
-- primitive (numbers, strings, booleans — all opaque to the traversal, which
-- hands them to the type encoders).
inductive EData where
  | obj (entries : List (String × EData))
  | arr (elems : List EData)
  | prim (value : String)

/-- Modelled from the spec: EIP712_TYPE_PROPERTIES of eip712-utils (not under
src/) is a table keyed by the upper-cased primitive kinds of §4.5: integer,
bytes, string, boolean, address. A name outside the table is a custom type. -/
def EIP712_TYPE_PROPERTIES : List String :=
  ["INT", "UINT", "BYTES", "STRING", "BOOL", "ADDRESS"]

structure TypeDescription where
  name : String
  bits : Option Nat
deriving DecidableEq, Repr

-- String.prototype.toUpperCase for the (ASCII) type names, character-wise.
def toUpperStr (s : String) : String :=
  String.mk (s.data.map Char.toUpper)

-- Scans one array-size marker after an opening bracket: digits then ']'.
def scanMarkerAux : List Char → Nat → Bool → Option (Option Nat × List Char)
  | [], _, _ => none
  | c :: rest, acc, seen =>
    if c = ']' then some ((if seen then some acc else none), rest)
    else if c.isDigit then scanMarkerAux rest (acc * 10 + (c.toNat - 48)) true
    else none

def parseMarkersAux : Nat → List Char → List (Option Nat)
  | 0, _ => []
  | fuel + 1, cs =>
    match cs with
    | '[' :: rest =>
      match scanMarkerAux rest 0 false with
      | some (m, tail) => m :: parseMarkersAux fuel tail
      | none => []
    | _ => []

def parseMarkers (cs : List Char) : List (Option Nat) :=
  parseMarkersAux cs.length cs

/-- Modelled from the spec: destructTypeFromString of eip712-utils (not under
src/) decomposes a field type descriptor into a base type name, an optional
bit width (trailing digits of the base, e.g. uint256), and zero or more
array-size markers (fixed "[n]" or dynamic "[]"). -/
def destructTypeFromString (s : String) : TypeDescription × List (Option Nat) :=
  let cs := s.data
  let base := cs.takeWhile (fun c => c ≠ '[')
  let markers := parseMarkers (cs.dropWhile (fun c => c ≠ '['))
  let revBase := base.reverse
  let revDigits := revBase.takeWhile Char.isDigit
  let name := (revBase.dropWhile Char.isDigit).reverse
  let bits := if revDigits.isEmpty then none
              else some (revDigits.reverse.foldl (fun acc c => acc * 10 + (c.toNat - 48)) 0)
  (⟨String.mk name, bits⟩, markers)

-- The typesMap lookup of makeRecursiveFieldStructImplem: typesMap[type] is
-- built by a reduce whose spread lets a later duplicate field name overwrite
-- an earlier one, hence the lookup on the reversed field list.
def lookupFieldType (types : List (String × List (String × String)))
    (tyName fieldName : String) : Option String :=
  match types.lookup tyName with
  | none => none
  | some fields => fields.reverse.lookup fieldName

-- One record emitted over the wire by the traversal: an array record with the
-- element count, a showField filtering record, or a field-value record.
inductive StructRecord where
  | arrayRec (count : Nat)
  | showField (label : String) (sig : String)
  | fieldRec (data : EData) (typeName : String) (sizeInBits : Option Nat)

structure FilterField where
  path : String
  label : String
  signature : String
deriving DecidableEq, Repr

structure MessageFilters where
  fields : List FilterField
deriving DecidableEq, Repr

-- Object.entries(data): entries for objects in insertion order; index-keyed
-- entries for arrays. (A primitive reaching the custom-type branch yields no
-- declared fields, so it is modeled as having no entries.)
def entriesOf : EData → List (String × EData)
  | .obj entries => entries
  | .arr elems => ((List.range elems.length).zip elems).map (fun p => (toString p.1, p.2))
  | .prim _ => []

-- makeRecursiveFieldStructImplem's recursion (part_001 lines 124-172), with
-- fuel for the JS recursion; the result is the ordered list of records the
-- traversal sends.
def recursiveFieldStructImplem (types : List (String × List (String × String)))
    (filters : Option MessageFilters) :
    Nat → (TypeDescription × List (Option Nat)) → EData → String →
      Option (List StructRecord)
  | 0, _, _, _ => none
  | fuel + 1, (typeDescription, arrSizes), data, path =>
    match data, arrSizes with
    | .arr elems, _ :: restSizes =>
      -- Array.isArray(data) && typeof currSize !== "undefined"
      do
        let rs ← elems.mapM (fun entry =>
          recursiveFieldStructImplem types filters fuel (typeDescription, restSizes)
            entry (path ++ ".[]"))
        pure (.arrayRec elems.length :: rs.flatten)
    | data, _ =>
      if ¬ EIP712_TYPE_PROPERTIES.contains (toUpperStr typeDescription.name) then
        -- custom type: iterate Object.entries(data) in input order, skipping
        -- entries whose name does not resolve in the type map
        do
          let rs ← (entriesOf data).mapM (fun fv =>
            match lookupFieldType types typeDescription.name fv.1 with
            | some fieldType =>
              recursiveFieldStructImplem types filters fuel
                (destructTypeFromString fieldType) fv.2 (path ++ "." ++ fv.1)
            | none => pure [])
          pure rs.flatten
      else
        let filterRecs := match filters with
          | some fs =>
            match fs.fields.find? (fun f => path = f.path) with
            | some f => [StructRecord.showField f.label f.signature]
            | none => []
          | none => []
        pure (filterRecs ++ [.fieldRec data typeDescription.name typeDescription.bits])

/-! ## sendStructImplem field records (unnamed part_001 lines 267-311) -/

-- The "field" branch of sendStructImplem, parameterized by the already
-- encoded value (the EIP712_TYPE_ENCODERS are outside this layer): the
-- length-prefixed record is cut into data.slice(i*255, (i+1)*255) for
-- i < Math.ceil(data.length / 256) slices, each sent with P1_partial = 0x01
-- except the last (reference-identical to the final array element), sent with
-- P1_complete = 0x00. intAsHexBytes(v, 1) is modeled as the byte [v] (the
-- theorems keep the record small enough that v < 256).
def sendStructImplemField (encodedData : List Nat) : List (Nat × List Nat) :=
  let dataLengthPer16Bits := encodedData.length / 256
  let dataLengthModulo16Bits := encodedData.length % 256
  let data := [dataLengthPer16Bits] ++ [dataLengthModulo16Bits] ++ encodedData
  let n := (data.length + 255) / 256
  (List.range n).map (fun i =>
    (if i ≠ n - 1 then 0x01 else 0x00, (data.drop (i * 255)).take 255))

/-! ## v derivation in Commands.signEthTransaction (index.ts) -/

-- The trailing padding step: if v has odd length it is prefixed with "0".
def padEvenHex (v : String) : String :=
  if v.length % 2 = 1 then "0" ++ v else v

-- The computation of v from the first response byte. chainId is a BigNumber
-- (arbitrary precision); chainIdTruncated and the response byte are JS numbers;
-- txType is null for legacy transactions.
def signTransactionV (chainId chainIdTruncated : Nat) (txType : Option Nat)
    (responseByte : Nat) : String :=
  let v :=
    if 2 * chainId + 35 + 1 > 255 then
      let oneByteChainId := (chainIdTruncated * 2 + 35) % 256
      let eccParity := ((responseByte : Int) - (oneByteChainId : Int)).natAbs
      if txType.isSome then
        -- For EIP2930 and EIP1559 tx, v is simply the parity.
        if eccParity % 2 = 1 then "00" else "01"
      else
        -- Legacy type transaction with a big chain ID
        natToHex (2 * chainId + 35 + eccParity)
    else
      natToHex responseByte
  padEvenHex v

end Shell

namespace Shell

/-! ## Theorems -/

/-- C3: starting an atomic exchange while another is in flight fails immediately
with RaceCondition without running the operation; the busy flag is cleared on
every exit path (success or failure) of an accepted operation, so a subsequent
atomic exchange is accepted (its operation runs). -/
theorem claim_C3_busy_gate {ε α : Type} (f g : Except ε α) :
    (exchangeAtomicImpl true f).result = .error .raceCondition ∧
    (exchangeAtomicImpl true f).opRan = false ∧
    (exchangeAtomicImpl true f).busyAfter = true ∧
    (exchangeAtomicImpl false f).busyAfter = false ∧
    (exchangeAtomicImpl (exchangeAtomicImpl false f).busyAfter g).opRan = true := by
  cases f <;> cases g <;> simp [exchangeAtomicImpl]

/-- C4: send rejects a payload of 256 or more bytes with the data-too-large
error before any exchange; otherwise it performs exactly one raw exchange of
the 4 header bytes, a 1-byte length and the payload, reads the trailing 2-byte
big-endian status word, and fails with a status-mapped error if and only if
that status word is not in the acceptable-status list (default [0x9000]). -/
theorem claim_C4_send_validation (cla ins p1 p2 : Nat) (data : List Nat)
    (statusList : List Nat) (exchange : List Nat → List Nat) (sw : Nat)
    (hsw : readUInt16BE (exchange (sendApdu cla ins p1 p2 data))
      ((exchange (sendApdu cla ins p1 p2 data)).length - 2) = some sw) :
    defaultStatusList = [0x9000] ∧
    (data.length ≥ 256 →
      send cla ins p1 p2 data statusList exchange =
        (.error (.dataLengthTooBig data.length), [])) ∧
    (data.length < 256 →
      (send cla ins p1 p2 data statusList exchange).2 = [sendApdu cla ins p1 p2 data] ∧
      (sw ∈ statusList →
        (send cla ins p1 p2 data statusList exchange).1 =
          .ok (exchange (sendApdu cla ins p1 p2 data))) ∧
      (sw ∉ statusList →
        (send cla ins p1 p2 data statusList exchange).1 =
          .error (.statusError (mkTransportStatusError sw)))) := by
  refine ⟨rfl, ?_, ?_⟩
  · intro h
    simp only [send, if_pos h]
  · intro h
    have hnot : ¬ data.length ≥ 256 := by omega
    refine ⟨?_, ?_, ?_⟩
    · simp only [send, if_neg hnot, hsw]
      by_cases hmem : statusList.any (fun s => s == sw) <;> simp [hmem]
    · intro hmem
      have : statusList.any (fun s => s == sw) = true := by
        simp only [List.any_eq_true, beq_iff_eq]
        exact ⟨sw, hmem, rfl⟩
      simp only [send, if_neg hnot, hsw, this, if_pos]
    · intro hmem
      have : statusList.any (fun s => s == sw) = false := by
        simp only [List.any_eq_false, beq_iff_eq]
        intro x hx hxe
        exact hmem (hxe ▸ hx)
      simp only [send, if_neg hnot, hsw, this]
      simp

/-- C4 witness: a concrete accepted exchange with a 2-byte payload and the
device answering status 0x9000. -/
theorem claim_C4_send_validation_witness :
    ([1, 2] : List Nat).length < 256 ∧
    (send 0xe0 0x02 0 0 [1, 2] [0x9000] (fun _ => [0x90, 0x00])).1 = .ok [0x90, 0x00] := by
  refine ⟨by decide, ?_⟩
  have h := claim_C4_send_validation 0xe0 0x02 0 0 [1, 2] [0x9000]
    (fun _ => [0x90, 0x00]) 0x9000 (by decide)
  exact (h.2.2 (by decide)).2.1 (by decide)

/-- C8: status word 0x9000 classifies as OK and raises no error; 0x6982 raises
an error whose message carries the security-not-satisfied hint; 0x5515 always
raises the distinguished locked-device error rather than a generic status
error; and a status word with no entry in the taxonomy raises an error whose
statusText label is "UNKNOWN_ERROR" rather than failing classification. -/
theorem claim_C8_status_classification :
    ((StatusCodes.find? (fun p => p.2 == 0x9000)).map Prod.fst = some "OK") ∧
    (∀ (data resp : List Nat), data.length < 256 →
      readUInt16BE resp (resp.length - 2) = some 0x9000 →
      (send 0xe0 0 0 0 data defaultStatusList (fun _ => resp)).1 = .ok resp) ∧
    (mkTransportStatusError 0x6982 =
      .transportStatus
        "Shell device: Security not satisfied (dongle locked or have invalid access rights) (0x6982)"
        "SECURITY_STATUS_NOT_SATISFIED" 0x6982) ∧
    (mkTransportStatusError 0x5515 = .lockedDevice "Shell device: Locked device (0x5515)") ∧
    (∀ code : Nat, (∀ p ∈ StatusCodes, p.2 ≠ code) →
      ∃ m, mkTransportStatusError code = .transportStatus m "UNKNOWN_ERROR" code) := by
  refine ⟨by decide, ?_, by decide, by decide, ?_⟩
  · intro data resp hlen hsw
    have hnot : ¬ data.length ≥ 256 := by omega
    simp only [send, if_neg hnot, hsw, defaultStatusList]
    norm_num
  · intro code hcode
    have hfind : StatusCodes.find? (fun p => p.2 == code) = none := by
      apply List.find?_eq_none.mpr
      intro p hp
      simp only [beq_iff_eq]
      exact hcode p hp
    have hne : code ≠ 0x5515 := by
      intro he
      exact hcode ("LOCKED_DEVICE", 0x5515) (by decide) (by simpa using he.symm)
    refine ⟨"Shell device: " ++ ((getAltStatusMessage code).getD "UNKNOWN_ERROR") ++
      " (0x" ++ natToHex code ++ ")", ?_⟩
    simp only [mkTransportStatusError, hfind, Option.map_none', Option.getD_none, if_neg hne]

/-- C8 witness: the unknown-status branch at the concrete status word 0x1111,
which has no entry in the taxonomy. -/
theorem claim_C8_status_classification_witness :
    (∀ p ∈ StatusCodes, p.2 ≠ 0x1111) ∧
    (∃ m, mkTransportStatusError 0x1111 = .transportStatus m "UNKNOWN_ERROR" 0x1111) ∧
    (send 0xe0 0 0 0 [7] defaultStatusList (fun _ => [0x90, 0x00])).1 = .ok [0x90, 0x00] := by
  refine ⟨by decide, ?_, ?_⟩
  · exact (claim_C8_status_classification.2.2.2.2) 0x1111 (by decide)
  · exact claim_C8_status_classification.2.1 [7] [0x90, 0x00] (by decide) (by decide)

/-- C5: if 2*chainId + 35 + 1 > 255 the recovery byte is reduced against the
truncated one-byte chain-ID computation (chainIdTruncated*2 + 35) % 256; for
typed (post-EIP-2930) transactions v is that parity encoded as "00"/"01"; for
legacy transactions with oversized chain ID v is 2*chainId + 35 + parity in
hex; otherwise v is the raw recovery byte in hex; and the returned v always
has even length (left-zero-padded). -/
theorem claim_C5_v_derivation (chainId chainIdTruncated : Nat) (txType : Option Nat)
    (responseByte : Nat) :
    (2 * chainId + 35 + 1 > 255 → txType.isSome →
      signTransactionV chainId chainIdTruncated txType responseByte =
        (if ((responseByte : Int) - ((chainIdTruncated * 2 + 35) % 256 : Nat)).natAbs % 2 = 1
         then "00" else "01")) ∧
    (2 * chainId + 35 + 1 > 255 → txType = none →
      signTransactionV chainId chainIdTruncated txType responseByte =
        padEvenHex (natToHex (2 * chainId + 35 +
          ((responseByte : Int) - ((chainIdTruncated * 2 + 35) % 256 : Nat)).natAbs))) ∧
    (¬ 2 * chainId + 35 + 1 > 255 →
      signTransactionV chainId chainIdTruncated txType responseByte =
        padEvenHex (natToHex responseByte)) ∧
    (signTransactionV chainId chainIdTruncated txType responseByte).length % 2 = 0 := by
  have hzero : ("0" : String).length = 1 := rfl
  have hpad : ∀ s : String, (padEvenHex s).length % 2 = 0 := by
    intro s
    unfold padEvenHex
    by_cases h : s.length % 2 = 1
    · simp only [if_pos h, String.length_append, hzero]
      omega
    · simp only [if_neg h]
      omega
  have hbody : ∀ (hbig : 2 * chainId + 35 + 1 > 255),
      signTransactionV chainId chainIdTruncated txType responseByte =
        padEvenHex (if txType.isSome then
            (if ((responseByte : Int) -
                (((chainIdTruncated * 2 + 35) % 256 : Nat) : Int)).natAbs % 2 = 1
             then "00" else "01")
          else natToHex (2 * chainId + 35 +
            ((responseByte : Int) -
              (((chainIdTruncated * 2 + 35) % 256 : Nat) : Int)).natAbs)) := by
    intro hbig
    simp only [signTransactionV]
    rw [if_pos hbig]
  refine ⟨?_, ?_, ?_, ?_⟩
  · intro hbig hty
    rw [hbody hbig, hty]
    simp only [if_true]
    by_cases hp : ((responseByte : Int) -
        (((chainIdTruncated * 2 + 35) % 256 : Nat) : Int)).natAbs % 2 = 1
    · rw [if_pos hp]
      decide
    · rw [if_neg hp]
      decide
  · intro hbig hty
    rw [hbody hbig, hty]
    rfl
  · intro hsmall
    simp only [signTransactionV]
    rw [if_neg hsmall]
  · by_cases hbig : 2 * chainId + 35 + 1 > 255
    · rw [hbody hbig]
      exact hpad _
    · simp only [signTransactionV]
      rw [if_neg hbig]
      exact hpad _

/-- C5 witness: the spec's own test vector, a legacy transaction with chain ID 1
and recovery byte 0x1c: v is the raw byte "1c", of even length. -/
theorem claim_C5_v_derivation_witness :
    ¬ 2 * 1 + 35 + 1 > 255 ∧
    signTransactionV 1 1 none 0x1c = padEvenHex (natToHex 0x1c) ∧
    signTransactionV 1 1 none 0x1c = "1c" := by
  refine ⟨by decide, (claim_C5_v_derivation 1 1 none 0x1c).2.2.1 (by decide), ?_⟩
  decide

/-! ## HID framing round trip -/

theorem u16_decode (v : Nat) (hv : v ≤ 65535) : v / 256 % 256 * 256 + v % 256 = v := by
  omega

theorem drop_cons_two {α : Type} (a b : α) (l : List α) (n : Nat) (h : 2 ≤ n) :
    (a :: b :: l).drop n = l.drop (n - 2) := by
  obtain ⟨m, rfl⟩ : ∃ m, n = m + 2 := ⟨n - 2, by omega⟩
  simp [List.drop_succ_cons]

theorem take_cons_two {α : Type} (a b : α) (l : List α) (n : Nat) (h : 2 ≤ n) :
    (a :: b :: l).take n = a :: b :: l.take (n - 2) := by
  obtain ⟨m, rfl⟩ : ∃ m, n = m + 2 := ⟨n - 2, by omega⟩
  simp [List.take_succ_cons]

theorem reduceResponse_cons_some (channel : Nat) (d : List Nat) (dl sq : Nat)
    (c1 c2 t s1 s2 : Nat) (rest : List Nat)
    (hc : c1 * 256 + c2 = channel) (ht : t = hidTag) (hs : s1 * 256 + s2 = sq) :
    reduceResponse channel (some ⟨d, dl, sq⟩) (c1 :: c2 :: t :: s1 :: s2 :: rest) =
      .ok ⟨if (d ++ rest).length > dl then (d ++ rest).take dl else d ++ rest,
           dl, sq + 1⟩ := by
  simp [reduceResponse, readUInt16BE, readUInt8, hc, ht, hs]

theorem reduceResponse_cons_none (channel : Nat)
    (c1 c2 t s1 s2 d1 d2 : Nat) (rest : List Nat)
    (hc : c1 * 256 + c2 = channel) (ht : t = hidTag) (hs : s1 * 256 + s2 = 0) :
    reduceResponse channel none (c1 :: c2 :: t :: s1 :: s2 :: d1 :: d2 :: rest) =
      .ok ⟨if rest.length > d1 * 256 + d2
           then rest.take (d1 * 256 + d2) else rest,
           d1 * 256 + d2, 1⟩ := by
  simp [reduceResponse, readUInt16BE, readUInt8, initialAcc, hc, ht, hs]

-- The accumulate-then-truncate step of reduceResponse, acting on a prefix of
-- the padded payload: the result is always a prefix of the original payload.
theorem hid_trunc_take (apdu : List Nat) (p m0 b : Nat)
    (hlen : m0 + b ≤ apdu.length + p) :
    (if (apdu.take m0 ++ ((apdu ++ List.replicate p (0 : Nat)).drop m0).take b).length > apdu.length
     then (apdu.take m0 ++ ((apdu ++ List.replicate p (0 : Nat)).drop m0).take b).take apdu.length
     else apdu.take m0 ++ ((apdu ++ List.replicate p (0 : Nat)).drop m0).take b)
    = apdu.take (m0 + b) := by
  have hAlen : (apdu ++ List.replicate p (0 : Nat)).length = apdu.length + p := by
    simp
  by_cases hm0 : m0 ≤ apdu.length
  · have h1 : apdu.take m0 = (apdu ++ List.replicate p (0 : Nat)).take m0 :=
      (List.take_append_of_le_length hm0).symm
    rw [h1, ← List.take_add]
    have hlen2 : ((apdu ++ List.replicate p (0 : Nat)).take (m0 + b)).length = m0 + b := by
      rw [List.length_take]
      omega
    by_cases h2 : m0 + b ≤ apdu.length
    · rw [if_neg (by rw [hlen2]; omega)]
      exact List.take_append_of_le_length h2
    · rw [if_pos (by rw [hlen2]; omega)]
      rw [List.take_take]
      have hmin : min apdu.length (m0 + b) = apdu.length := by omega
      rw [hmin, List.take_left' rfl]
      exact (List.take_of_length_le (by omega)).symm
  · have h1 : apdu.take m0 = apdu := List.take_of_length_le (by omega)
    rw [h1]
    have hslice : (((apdu ++ List.replicate p (0 : Nat)).drop m0).take b).length = b := by
      rw [List.length_take, List.length_drop, hAlen]
      omega
    by_cases hb : b = 0
    · subst hb
      rw [if_neg (by simp)]
      have h3 : apdu.take (m0 + 0) = apdu := List.take_of_length_le (by omega)
      rw [h3]
      simp
    · rw [if_pos (by rw [List.length_append, hslice]; omega)]
      rw [List.take_left' rfl]
      exact (List.take_of_length_le (by omega)).symm

theorem hid_trunc_take0 (apdu : List Nat) (p b : Nat)
    (hlen : b ≤ apdu.length + p) :
    (if ((apdu ++ List.replicate p (0 : Nat)).take b).length > apdu.length
     then ((apdu ++ List.replicate p (0 : Nat)).take b).take apdu.length
     else (apdu ++ List.replicate p (0 : Nat)).take b) = apdu.take b := by
  have h := hid_trunc_take apdu p 0 b (by omega)
  simpa using h

-- Processing the blocks with index k, k+1, ..., NB-1 from the accumulator that
-- has already absorbed the first k blocks.
theorem hid_blocks_inv (channel BS NB : Nat) (apdu : List Nat) (p : Nat)
    (hch : channel ≤ 65535) (hBS : 2 ≤ BS)
    (hplen : apdu.length + p = NB * BS - 1)
    (hL : 2 + apdu.length ≤ NB * BS)
    (hNB : NB ≤ 65535) :
    ∀ j k, 1 ≤ k → k + j = NB →
      reduceAll channel (some ⟨apdu.take (k * BS - 2), apdu.length, k⟩)
        ((List.range' k j).map (fun i =>
          asUInt16BE channel ++ [hidTag] ++ asUInt16BE i ++
            (((apdu ++ List.replicate p (0 : Nat)).drop (i * BS - 2)).take BS)))
        = .ok (some ⟨apdu, apdu.length, NB⟩) := by
  intro j
  induction j with
  | zero =>
    intro k hk1 hkj
    have hk : k = NB := by omega
    subst hk
    have htake : apdu.take (k * BS - 2) = apdu :=
      List.take_of_length_le (by omega)
    simp [reduceAll, htake]
  | succ j ih =>
    intro k hk1 hkj
    rw [List.range'_succ, List.map_cons]
    have hkBS : BS ≤ k * BS := Nat.le_mul_of_pos_left BS (by omega)
    have hk1BS : (k + 1) * BS ≤ NB * BS := Nat.mul_le_mul_right BS (by omega)
    have hsucc : (k + 1) * BS = k * BS + BS := Nat.succ_mul k BS
    have hred : reduceResponse channel (some ⟨apdu.take (k * BS - 2), apdu.length, k⟩)
        (asUInt16BE channel ++ [hidTag] ++ asUInt16BE k ++
          (((apdu ++ List.replicate p (0 : Nat)).drop (k * BS - 2)).take BS)) =
        .ok ⟨apdu.take ((k + 1) * BS - 2), apdu.length, k + 1⟩ := by
      have hblock : asUInt16BE channel ++ [hidTag] ++ asUInt16BE k ++
          (((apdu ++ List.replicate p (0 : Nat)).drop (k * BS - 2)).take BS) =
          channel / 256 % 256 :: channel % 256 :: hidTag :: k / 256 % 256 :: k % 256 ::
            (((apdu ++ List.replicate p (0 : Nat)).drop (k * BS - 2)).take BS) := rfl
      rw [hblock]
      rw [reduceResponse_cons_some channel _ _ _ _ _ _ _ _ _
        (u16_decode channel hch) rfl (u16_decode k (by omega))]
      have hdata := hid_trunc_take apdu p (k * BS - 2) BS (by omega)
      have hidx : k * BS - 2 + BS = (k + 1) * BS - 2 := by omega
      rw [hidx] at hdata
      rw [hdata]
    simp only [reduceAll]
    rw [hred]
    exact ih (k + 1) (by omega) (by omega)

/-- C1 counterexample: the claim admits every packet size of at least 6, but at
packet size 6 the first packet holds only 6 bytes, so reduceResponse's 16-bit
length read at offset 5 is out of bounds and the round trip fails even for the
empty payload. -/
theorem claim_C1_framing_round_trip_counterexample :
    hidRoundTrip 0 6 [] = none ∧ hidRoundTrip 0 6 [] ≠ some [] := by
  decide

-- The round-trip core, with the ceil-division characterized by bounds.
theorem hid_round_trip_core (channel BS NB p : Nat) (apdu : List Nat)
    (hch : channel ≤ 65535) (hBS : 2 ≤ BS) (hlen : apdu.length ≤ 65535)
    (h1 : 2 + apdu.length ≤ BS * NB) (h2 : BS * NB ≤ apdu.length + BS + 1)
    (hp : p = NB * BS - (2 + apdu.length) + 1) :
    reduceAll channel none ((List.range NB).map (fun i =>
        asUInt16BE channel ++ [hidTag] ++ asUInt16BE i ++
          (((asUInt16BE apdu.length ++ (apdu ++ List.replicate p (0 : Nat))).drop
            (i * BS)).take BS)))
      = .ok (some ⟨apdu, apdu.length, NB⟩) := by
  have hmul : NB * BS = BS * NB := Nat.mul_comm NB BS
  have hL : 2 + apdu.length ≤ NB * BS := by omega
  have h2n : NB * BS ≤ apdu.length + BS + 1 := by omega
  have hplen : apdu.length + p = NB * BS - 1 := by omega
  have hNB1 : 1 ≤ NB := by
    by_contra h
    have h0 : NB = 0 := by omega
    rw [h0, Nat.zero_mul] at hL
    omega
  obtain ⟨m, rfl⟩ : ∃ m, NB = m + 1 := ⟨NB - 1, by omega⟩
  have hsm : (m + 1) * BS = m * BS + BS := Nat.succ_mul m BS
  have hm2 : m * 2 ≤ m * BS := Nat.mul_le_mul_left m hBS
  have hNB65 : m + 1 ≤ 65535 := by omega
  rw [List.range_eq_range', List.range'_succ, List.map_cons]
  have hfirst : asUInt16BE channel ++ [hidTag] ++ asUInt16BE 0 ++
      (((asUInt16BE apdu.length ++ (apdu ++ List.replicate p (0 : Nat))).drop
        (0 * BS)).take BS) =
      channel / 256 % 256 :: channel % 256 :: hidTag :: 0 :: 0 ::
        (apdu.length / 256 % 256 :: apdu.length % 256 ::
          (apdu ++ List.replicate p (0 : Nat)).take (BS - 2)) := by
    have htk : ((asUInt16BE apdu.length ++ (apdu ++ List.replicate p (0 : Nat))).drop
        (0 * BS)).take BS =
        apdu.length / 256 % 256 :: apdu.length % 256 ::
          (apdu ++ List.replicate p (0 : Nat)).take (BS - 2) := by
      rw [Nat.zero_mul, List.drop_zero]
      show (apdu.length / 256 % 256 :: apdu.length % 256 ::
        (apdu ++ List.replicate p (0 : Nat))).take BS = _
      exact take_cons_two _ _ _ BS hBS
    rw [htk]
    rfl
  rw [hfirst]
  simp only [reduceAll]
  rw [reduceResponse_cons_none channel _ _ _ _ _ _ _ _
    (u16_decode channel hch) rfl (by omega)]
  rw [u16_decode apdu.length hlen]
  have hdata0 := hid_trunc_take0 apdu p (BS - 2) (by omega)
  rw [hdata0]
  have hmaps : (List.range' 1 m).map (fun i =>
        asUInt16BE channel ++ [hidTag] ++ asUInt16BE i ++
          (((asUInt16BE apdu.length ++ (apdu ++ List.replicate p (0 : Nat))).drop
            (i * BS)).take BS)) =
      (List.range' 1 m).map (fun i =>
        asUInt16BE channel ++ [hidTag] ++ asUInt16BE i ++
          (((apdu ++ List.replicate p (0 : Nat)).drop (i * BS - 2)).take BS)) := by
    apply List.map_congr_left
    intro i hi
    have hi1 : 1 ≤ i := by
      have := List.mem_range'_1.mp hi
      omega
    have hiBS : 2 ≤ i * BS := by
      have := Nat.le_mul_of_pos_left BS (show 0 < i by omega)
      omega
    have hdrop : (asUInt16BE apdu.length ++ (apdu ++ List.replicate p (0 : Nat))).drop
        (i * BS) = (apdu ++ List.replicate p (0 : Nat)).drop (i * BS - 2) := by
      show (apdu.length / 256 % 256 :: apdu.length % 256 ::
        (apdu ++ List.replicate p (0 : Nat))).drop (i * BS) = _
      exact drop_cons_two _ _ _ _ hiBS
    rw [hdrop]
  rw [hmaps]
  have hone : apdu.take (BS - 2) = apdu.take (1 * BS - 2) := by
    rw [Nat.one_mul]
  rw [hone]
  exact hid_blocks_inv channel BS (m + 1) apdu p hch hBS (by omega) (by omega) hNB65 m 1
    (by omega) (by omega)

/-- C1 (amended: packet size at least 7 instead of at least 6): feeding the
packets produced by makeBlocks in order through reduceResponse from the empty
accumulator yields an accumulator from which getReducedResult returns the
original payload. -/
theorem claim_C1_framing_round_trip (channel packetSize : Nat) (apdu : List Nat)
    (hch : channel ≤ 65535) (hps : 7 ≤ packetSize) (hlen : apdu.length ≤ 65535) :
    hidRoundTrip channel packetSize apdu = some apdu := by
  have hBS : 2 ≤ packetSize - 5 := by omega
  have hdl : (asUInt16BE apdu.length ++ apdu).length = 2 + apdu.length := by
    simp [asUInt16BE]
    omega
  have hdm := Nat.div_add_mod (2 + apdu.length + (packetSize - 5) - 1) (packetSize - 5)
  have hmod := Nat.mod_lt (2 + apdu.length + (packetSize - 5) - 1)
    (show 0 < packetSize - 5 by omega)
  have h1 : 2 + apdu.length ≤ (packetSize - 5) *
      ((2 + apdu.length + (packetSize - 5) - 1) / (packetSize - 5)) := by omega
  have h2 : (packetSize - 5) *
      ((2 + apdu.length + (packetSize - 5) - 1) / (packetSize - 5)) ≤
      apdu.length + (packetSize - 5) + 1 := by omega
  have hblocks : makeBlocks channel packetSize apdu =
      (List.range ((2 + apdu.length + (packetSize - 5) - 1) / (packetSize - 5))).map
        (fun i =>
          asUInt16BE channel ++ [hidTag] ++ asUInt16BE i ++
            (((asUInt16BE apdu.length ++ (apdu ++ List.replicate
              ((2 + apdu.length + (packetSize - 5) - 1) / (packetSize - 5) *
                (packetSize - 5) - (2 + apdu.length) + 1) (0 : Nat))).drop
              (i * (packetSize - 5))).take (packetSize - 5))) := by
    simp only [makeBlocks, hdl]
    simp only [List.append_assoc]
  rw [hidRoundTrip, hblocks]
  rw [hid_round_trip_core channel (packetSize - 5)
    ((2 + apdu.length + (packetSize - 5) - 1) / (packetSize - 5))
    ((2 + apdu.length + (packetSize - 5) - 1) / (packetSize - 5) * (packetSize - 5) -
      (2 + apdu.length) + 1)
    apdu hch hBS hlen h1 h2 rfl]
  simp [getReducedResult]

/-- C1 witness: a concrete 5-byte payload framed at packet size 9 on channel 3
round-trips. -/
theorem claim_C1_framing_round_trip_witness :
    (3 : Nat) ≤ 65535 ∧ 7 ≤ 9 ∧ ([1, 2, 3, 4, 5] : List Nat).length ≤ 65535 ∧
    hidRoundTrip 3 9 [1, 2, 3, 4, 5] = some [1, 2, 3, 4, 5] :=
  ⟨by decide, by decide, by decide,
    claim_C1_framing_round_trip 3 9 [1, 2, 3, 4, 5] (by decide) (by decide) (by decide)⟩

/-! ## Chunk loop lemmas -/

theorem flatMap_u32_length (paths : List Nat) :
    (paths.flatMap asUInt32BE).length = 4 * paths.length := by
  induction paths with
  | nil => rfl
  | cons a l ih =>
    simp only [List.flatMap_cons, List.length_append, ih]
    have h4 : (asUInt32BE a).length = 4 := rfl
    rw [h4]
    simp only [List.length_cons]
    omega

theorem pathHeader_length (paths : List Nat) :
    (pathHeader paths).length = 1 + 4 * paths.length := by
  simp only [pathHeader, List.length_append, flatMap_u32_length, List.length_cons,
    List.length_nil]

-- Continuation chunks of sendChunks: from any positive offset the loop runs to
-- completion in ceil((len - offset)/255) further exchanges, all continuations
-- of at most 255 bytes.
theorem sendChunksLoop_tail (paths message : List Nat) :
    ∀ fuel offset, 1 ≤ offset → offset ≤ message.length →
      message.length - offset + 1 ≤ fuel →
      ∃ bl, sendChunksLoop fuel paths message offset = some bl ∧
        bl.length = (message.length - offset + 254) / 255 ∧
        ∀ pb ∈ bl, pb.1 = 0x80 ∧ pb.2.length ≤ 255 := by
  intro fuel
  induction fuel with
  | zero =>
    intro offset h1 h2 h3
    exact absurd h3 (by omega)
  | succ fuel ih =>
    intro offset h1 h2 h3
    by_cases heq : offset = message.length
    · refine ⟨[], by simp [sendChunksLoop, heq], ?_, by simp⟩
      simp only [List.length_nil]
      omega
    · have hoff0 : ¬ offset = 0 := by omega
      have hsplit : (message.length < offset + 255 ∧
            (if offset + 255 > message.length then message.length - offset else 255) =
              message.length - offset) ∨
          (offset + 255 ≤ message.length ∧
            (if offset + 255 > message.length then message.length - offset else 255) = 255) := by
        split
        · left
          constructor <;> omega
        · right
          constructor <;> omega
      have hcs1 : 1 ≤ (if offset + 255 > message.length then message.length - offset else 255) := by
        rcases hsplit with ⟨h, he⟩ | ⟨h, he⟩ <;> rw [he] <;> omega
      have hcsle : offset + (if offset + 255 > message.length then message.length - offset else 255)
          ≤ message.length := by
        rcases hsplit with ⟨h, he⟩ | ⟨h, he⟩ <;> rw [he] <;> omega
      obtain ⟨bl, hbl, hlen, hall⟩ := ih
        (offset + (if offset + 255 > message.length then message.length - offset else 255))
        (by omega) (by omega) (by omega)
      refine ⟨(0x80, (message.drop offset).take
          (if offset + 255 > message.length then message.length - offset else 255)) :: bl,
        ?_, ?_, ?_⟩
      · simp only [sendChunksLoop, if_neg heq, if_neg hoff0, hbl, Option.map_some']
      · simp only [List.length_cons, hlen]
        rcases hsplit with ⟨h, he⟩ | ⟨h, he⟩ <;> rw [he] <;> omega
      · intro pb hpb
        rcases List.mem_cons.mp hpb with hhd | htl
        · subst hhd
          refine ⟨rfl, ?_⟩
          simp only [List.length_take, List.length_drop]
          rcases hsplit with ⟨h, he⟩ | ⟨h, he⟩ <;> rw [he] <;> omega
        · exact hall pb htl

-- The full sendChunks sequence for a nonempty message: one header-carrying
-- first exchange followed by the continuation chunks.
theorem sendChunksLoop_spec (paths message : List Nat) (fuel : Nat)
    (hn : paths.length ≤ 62) (hL : 1 ≤ message.length)
    (hfuel : message.length + 1 ≤ fuel) :
    ∃ rest, sendChunksLoop fuel paths message 0 =
        some ((0x00, pathHeader paths ++ asUInt32BE message.length ++
          message.take (min (255 - 1 - paths.length * 4 - 4) message.length)) :: rest) ∧
      rest.length = (message.length -
        min (255 - 1 - paths.length * 4 - 4) message.length + 254) / 255 ∧
      ∀ pb ∈ rest, pb.1 = 0x80 ∧ pb.2.length ≤ 255 := by
  obtain ⟨fuel, rfl⟩ : ∃ f, fuel = f + 1 := ⟨fuel - 1, by omega⟩
  have hne : ¬ (0 : Nat) = message.length := by omega
  have hcap : 2 ≤ 255 - 1 - paths.length * 4 - 4 := by omega
  have hcs : (if 0 + (255 - 1 - paths.length * 4 - 4) > message.length
      then message.length - 0 else 255 - 1 - paths.length * 4 - 4) =
      min (255 - 1 - paths.length * 4 - 4) message.length := by
    split <;> omega
  obtain ⟨bl, hbl, hlen, hall⟩ := sendChunksLoop_tail paths message fuel
    (min (255 - 1 - paths.length * 4 - 4) message.length)
    (by omega) (by omega) (by omega)
  refine ⟨bl, ?_, hlen, hall⟩
  have hstep : sendChunksLoop (fuel + 1) paths message 0 =
      if 0 = message.length then some [] else
        Option.map (((0x00 : Nat), pathHeader paths ++ asUInt32BE message.length ++
            (message.drop 0).take (if 0 + (255 - 1 - paths.length * 4 - 4) > message.length
              then message.length - 0 else 255 - 1 - paths.length * 4 - 4)) :: ·)
          (sendChunksLoop fuel paths message
            (0 + (if 0 + (255 - 1 - paths.length * 4 - 4) > message.length
              then message.length - 0 else 255 - 1 - paths.length * 4 - 4))) := rfl
  rw [hstep, if_neg hne, hcs]
  simp only [Nat.zero_add, List.drop_zero]
  rw [hbl]
  rfl

-- Continuation chunks of signEthTransaction when the EIP-155 marker is unset.
theorem signTxChunks0_tail (paths rawTx : List Nat) :
    ∀ fuel offset, 1 ≤ offset → offset ≤ rawTx.length →
      rawTx.length - offset + 1 ≤ fuel →
      ∃ bl, signTxChunks fuel paths rawTx 0 offset = some bl ∧
        bl.length = (rawTx.length - offset + 149) / 150 ∧
        ∀ pb ∈ bl, pb.1 = 0x80 ∧ pb.2.length ≤ 150 := by
  intro fuel
  induction fuel with
  | zero =>
    intro offset h1 h2 h3
    exact absurd h3 (by omega)
  | succ fuel ih =>
    intro offset h1 h2 h3
    by_cases heq : offset = rawTx.length
    · refine ⟨[], by simp [signTxChunks, heq], ?_, by simp⟩
      simp only [List.length_nil]
      omega
    · have hoff0 : ¬ offset = 0 := by omega
      have hsplit : (rawTx.length < offset + 150 ∧
            (if offset + 150 > rawTx.length then rawTx.length - offset else 150) =
              rawTx.length - offset) ∨
          (offset + 150 ≤ rawTx.length ∧
            (if offset + 150 > rawTx.length then rawTx.length - offset else 150) = 150) := by
        split
        · left
          constructor <;> omega
        · right
          constructor <;> omega
      have hcs1 : 1 ≤ (if offset + 150 > rawTx.length then rawTx.length - offset else 150) := by
        rcases hsplit with ⟨h, he⟩ | ⟨h, he⟩ <;> rw [he] <;> omega
      have hcsle : offset + (if offset + 150 > rawTx.length then rawTx.length - offset else 150)
          ≤ rawTx.length := by
        rcases hsplit with ⟨h, he⟩ | ⟨h, he⟩ <;> rw [he] <;> omega
      obtain ⟨bl, hbl, hlen, hall⟩ := ih
        (offset + (if offset + 150 > rawTx.length then rawTx.length - offset else 150))
        (by omega) (by omega) (by omega)
      refine ⟨(0x80, (rawTx.drop offset).take
          (if offset + 150 > rawTx.length then rawTx.length - offset else 150)) :: bl,
        ?_, ?_, ?_⟩
      · simp only [signTxChunks, if_neg heq, if_neg hoff0]
        rw [if_neg (show ¬ ((0 : Nat) ≠ 0 ∧
          offset + (if offset + 150 > rawTx.length then rawTx.length - offset else 150) ≥ 0)
          from by simp)]
        rw [hbl]
        rfl
      · simp only [List.length_cons, hlen]
        rcases hsplit with ⟨h, he⟩ | ⟨h, he⟩ <;> rw [he] <;> omega
      · intro pb hpb
        rcases List.mem_cons.mp hpb with hhd | htl
        · subst hhd
          refine ⟨rfl, ?_⟩
          simp only [List.length_take, List.length_drop]
          rcases hsplit with ⟨h, he⟩ | ⟨h, he⟩ <;> rw [he] <;> omega
        · exact hall pb htl

-- The full signEthTransaction sequence with the EIP-155 marker unset.
theorem signTxChunks0_spec (paths rawTx : List Nat) (fuel : Nat)
    (hn : paths.length ≤ 37) (hL : 1 ≤ rawTx.length)
    (hfuel : rawTx.length + 1 ≤ fuel) :
    ∃ rest, signTxChunks fuel paths rawTx 0 0 =
        some ((0x00, pathHeader paths ++
          rawTx.take (min (150 - 1 - paths.length * 4) rawTx.length)) :: rest) ∧
      rest.length = (rawTx.length - min (150 - 1 - paths.length * 4) rawTx.length + 149) / 150 ∧
      ∀ pb ∈ rest, pb.1 = 0x80 ∧ pb.2.length ≤ 150 := by
  obtain ⟨fuel, rfl⟩ : ∃ f, fuel = f + 1 := ⟨fuel - 1, by omega⟩
  have hne : ¬ (0 : Nat) = rawTx.length := by omega
  have hcap : 1 ≤ 150 - 1 - paths.length * 4 := by omega
  have hcs : (if 0 + (150 - 1 - paths.length * 4) > rawTx.length
      then rawTx.length - 0 else 150 - 1 - paths.length * 4) =
      min (150 - 1 - paths.length * 4) rawTx.length := by
    split <;> omega
  obtain ⟨bl, hbl, hlen, hall⟩ := signTxChunks0_tail paths rawTx fuel
    (min (150 - 1 - paths.length * 4) rawTx.length)
    (by omega) (by omega) (by omega)
  refine ⟨bl, ?_, hlen, hall⟩
  have hstep : signTxChunks (fuel + 1) paths rawTx 0 0 =
      if 0 = rawTx.length then some [] else
        (signTxChunks fuel paths rawTx 0
          (0 + (if 0 + (150 - 1 - paths.length * 4) > rawTx.length
            then rawTx.length - 0 else 150 - 1 - paths.length * 4))).map
          (((0x00 : Nat), pathHeader paths ++ (rawTx.drop 0).take
            (if 0 + (150 - 1 - paths.length * 4) > rawTx.length
              then rawTx.length - 0 else 150 - 1 - paths.length * 4)) :: ·) := rfl
  rw [hstep, if_neg hne, hcs]
  simp only [Nat.zero_add, List.drop_zero]
  rw [hbl]
  rfl

-- Commands.load chunks from any offset: constant 240-byte chunks, buffers of
-- at most 244 bytes (the 4-byte length header rides on top of the budget).
theorem loadChunks_spec (data : List Nat) :
    ∀ fuel offset, offset ≤ data.length → data.length - offset + 1 ≤ fuel →
      ∃ bl, loadChunks fuel data offset = some bl ∧
        bl.length = (data.length - offset + 239) / 240 ∧
        ∀ pb ∈ bl, pb.2.length ≤ 244 := by
  intro fuel
  induction fuel with
  | zero =>
    intro offset h2 h3
    exact absurd h3 (by omega)
  | succ fuel ih =>
    intro offset h2 h3
    by_cases heq : offset = data.length
    · refine ⟨[], by simp [loadChunks, heq], ?_, by simp⟩
      simp only [List.length_nil]
      omega
    · have hsplit : (data.length < offset + 240 ∧
            (if offset + 240 > data.length then data.length - offset else 240) =
              data.length - offset) ∨
          (offset + 240 ≤ data.length ∧
            (if offset + 240 > data.length then data.length - offset else 240) = 240) := by
        split
        · left
          constructor <;> omega
        · right
          constructor <;> omega
      have hcs1 : 1 ≤ (if offset + 240 > data.length then data.length - offset else 240) := by
        rcases hsplit with ⟨h, he⟩ | ⟨h, he⟩ <;> rw [he] <;> omega
      have hcsle : offset + (if offset + 240 > data.length then data.length - offset else 240)
          ≤ data.length := by
        rcases hsplit with ⟨h, he⟩ | ⟨h, he⟩ <;> rw [he] <;> omega
      obtain ⟨bl, hbl, hlen, hall⟩ := ih
        (offset + (if offset + 240 > data.length then data.length - offset else 240))
        (by omega) (by omega)
      refine ⟨((if offset = 0 then 0x00 else 0x80),
          (if offset = 0 then
            asUInt32BE data.length ++ (data.drop offset).take
              (if offset + 240 > data.length then data.length - offset else 240)
          else (data.drop offset).take
            (if offset + 240 > data.length then data.length - offset else 240))) :: bl,
        ?_, ?_, ?_⟩
      · simp only [loadChunks, if_neg heq]
        rw [hbl]
        rfl
      · simp only [List.length_cons, hlen]
        rcases hsplit with ⟨h, he⟩ | ⟨h, he⟩ <;> rw [he] <;> omega
      · intro pb hpb
        rcases List.mem_cons.mp hpb with hhd | htl
        · subst hhd
          by_cases hoff : offset = 0
          · simp only [if_pos hoff, List.length_append, List.length_take, List.length_drop,
              asUInt32BE, List.length_cons, List.length_nil]
            rcases hsplit with ⟨h, he⟩ | ⟨h, he⟩ <;> rw [he] <;> omega
          · simp only [if_neg hoff, List.length_take, List.length_drop]
            rcases hsplit with ⟨h, he⟩ | ⟨h, he⟩ <;> rw [he] <;> omega
        · exact hall pb htl

-- Every buffer sendChunks hands to transport.send fits in 255 bytes.
theorem sendChunksLoop_bound (paths message : List Nat) (hn : paths.length ≤ 62) :
    ∀ fuel offset bl, sendChunksLoop fuel paths message offset = some bl →
      ∀ pb ∈ bl, pb.2.length ≤ 255 := by
  intro fuel
  induction fuel with
  | zero =>
    intro offset bl h
    exact absurd h (by simp [sendChunksLoop])
  | succ fuel ih =>
    intro offset bl h
    by_cases heq : offset = message.length
    · simp only [sendChunksLoop, if_pos heq, Option.some.injEq] at h
      subst h
      simp
    · simp only [sendChunksLoop, if_neg heq] at h
      rcases Option.map_eq_some'.mp h with ⟨bl', hbl', hco⟩
      subst hco
      intro pb hpb
      rcases List.mem_cons.mp hpb with hhd | htl
      · subst hhd
        by_cases hoff : offset = 0
        · simp only [if_pos hoff, List.length_append, List.length_take, List.length_drop,
            asUInt32BE, pathHeader_length, List.length_cons, List.length_nil]
          split <;> omega
        · simp only [if_neg hoff, List.length_take, List.length_drop]
          split <;> omega
      · exact ih _ _ hbl' pb htl

-- Every buffer signPSBT hands to transport.send fits in 255 bytes.
theorem signPSBTChunks_bound (message : List Nat) :
    ∀ fuel offset bl, signPSBTChunks fuel message offset = some bl →
      ∀ pb ∈ bl, pb.2.length ≤ 255 := by
  intro fuel
  induction fuel with
  | zero =>
    intro offset bl h
    exact absurd h (by simp [signPSBTChunks])
  | succ fuel ih =>
    intro offset bl h
    by_cases heq : offset = message.length
    · simp only [signPSBTChunks, if_pos heq, Option.some.injEq] at h
      subst h
      simp
    · simp only [signPSBTChunks, if_neg heq] at h
      rcases Option.map_eq_some'.mp h with ⟨bl', hbl', hco⟩
      subst hco
      intro pb hpb
      rcases List.mem_cons.mp hpb with hhd | htl
      · subst hhd
        by_cases hoff : offset = 0
        · simp only [if_pos hoff, List.length_append, List.length_take, List.length_drop,
            asUInt32BE, List.length_cons, List.length_nil]
          split <;> omega
        · simp only [if_neg hoff, List.length_take, List.length_drop]
          split <;> omega
      · exact ih _ _ hbl' pb htl

-- Every buffer Commands.load hands to transport.send fits in 255 bytes.
theorem loadChunks_bound (data : List Nat) :
    ∀ fuel offset bl, loadChunks fuel data offset = some bl →
      ∀ pb ∈ bl, pb.2.length ≤ 255 := by
  intro fuel
  induction fuel with
  | zero =>
    intro offset bl h
    exact absurd h (by simp [loadChunks])
  | succ fuel ih =>
    intro offset bl h
    by_cases heq : offset = data.length
    · simp only [loadChunks, if_pos heq, Option.some.injEq] at h
      subst h
      simp
    · simp only [loadChunks, if_neg heq] at h
      rcases Option.map_eq_some'.mp h with ⟨bl', hbl', hco⟩
      subst hco
      intro pb hpb
      rcases List.mem_cons.mp hpb with hhd | htl
      · subst hhd
        by_cases hoff : offset = 0
        · simp only [if_pos hoff, List.length_append, List.length_take, List.length_drop,
            asUInt32BE, List.length_cons, List.length_nil]
          split <;> omega
        · simp only [if_neg hoff, List.length_take, List.length_drop]
          split <;> omega
      · exact ih _ _ hbl' pb htl

/-- C2 counterexample: a payload of length 0 issues zero exchanges, not the
one header-only exchange the claim asserts: the while loop's guard
offset !== length is already false at entry, so the chunk list is empty. -/
theorem claim_C2_chunk_count_counterexample :
    signTxChunks 1 [44] [] 0 0 = some [] ∧
    sendChunksLoop 1 [44] [] 0 = some [] ∧
    loadChunks 1 [] 0 = some [] ∧
    ([] : List (Nat × List Nat)).length ≠ 1 := by
  refine ⟨rfl, rfl, rfl, by decide⟩

/-- C2 (amended: a payload of length 0 issues zero exchanges, and for the load
encoder the 4-byte length header rides on top of the 240-byte budget, so its
overhead term is 0): for nonempty payloads the number of exchanges is
ceil((L+H)/B) with B = 150, H = 1+4n for transaction signing (marker unset),
B = 255, H = 1+4n+4 for message signing, and B = 240, H = 0 for loads; when
the replay marker is set, a transaction chunk whose computed end would land at
or after the non-zero marker consumes the remainder of the payload and ends
the sequence; the loop terminates exactly when the running offset reaches the
payload length. -/
theorem claim_C2_chunk_count (paths rawTx message data : List Nat) (vrs : Nat)
    (hn37 : paths.length ≤ 37) (hn62 : paths.length ≤ 62) :
    (1 ≤ rawTx.length → ∀ fuel, rawTx.length + 1 ≤ fuel →
      ∃ bl, signTxChunks fuel paths rawTx 0 0 = some bl ∧
        bl.length = (rawTx.length + (1 + paths.length * 4) + 149) / 150) ∧
    (1 ≤ message.length → ∀ fuel, message.length + 1 ≤ fuel →
      ∃ bl, sendChunksLoop fuel paths message 0 = some bl ∧
        bl.length = (message.length + (1 + paths.length * 4 + 4) + 254) / 255) ∧
    (∀ fuel, data.length + 1 ≤ fuel →
      ∃ bl, loadChunks fuel data 0 = some bl ∧ bl.length = (data.length + 239) / 240) ∧
    (signTxChunks 1 paths [] vrs 0 = some [] ∧ sendChunksLoop 1 paths [] 0 = some [] ∧
      loadChunks 1 [] 0 = some []) ∧
    (∀ offset fuel, 2 ≤ fuel → offset < rawTx.length → vrs ≠ 0 →
      offset + (if offset + (if offset = 0 then 150 - 1 - paths.length * 4 else 150) >
            rawTx.length then rawTx.length - offset
          else if offset = 0 then 150 - 1 - paths.length * 4 else 150) ≥ vrs →
      signTxChunks fuel paths rawTx vrs offset =
        some [(if offset = 0 then 0x00 else 0x80,
          if offset = 0 then pathHeader paths ++ (rawTx.drop offset).take (rawTx.length - offset)
          else (rawTx.drop offset).take (rawTx.length - offset))]) := by
  refine ⟨?_, ?_, ?_, ⟨by rfl, by rfl, by rfl⟩, ?_⟩
  · intro hL fuel hfuel
    obtain ⟨rest, hsome, hlen, _⟩ := signTxChunks0_spec paths rawTx fuel hn37 hL hfuel
    refine ⟨_, hsome, ?_⟩
    simp only [List.length_cons, hlen]
    omega
  · intro hL fuel hfuel
    obtain ⟨rest, hsome, hlen, _⟩ := sendChunksLoop_spec paths message fuel hn62 hL hfuel
    refine ⟨_, hsome, ?_⟩
    simp only [List.length_cons, hlen]
    omega
  · intro fuel hfuel
    obtain ⟨bl, hsome, hlen, _⟩ := loadChunks_spec data fuel 0 (by omega) (by omega)
    refine ⟨bl, hsome, ?_⟩
    rw [hlen]
    omega
  · intro offset fuel hfuel hlt hvrs hback
    obtain ⟨f, rfl⟩ : ∃ f, fuel = f + 2 := ⟨fuel - 2, by omega⟩
    have hne : ¬ offset = rawTx.length := by omega
    have harg : offset + (rawTx.length - offset) = rawTx.length := by omega
    simp only [signTxChunks, if_neg hne, if_pos (And.intro hvrs hback), if_pos harg,
      Option.map_some']

/-- C2 witness: the spec's own scenario: a 400-byte transaction with a 1-index
path chunks into exactly 3 exchanges; a 300-byte message into 2; a 480-byte
load into 2; and the boundary rule at a concrete marker consumes the
remainder. -/
theorem claim_C2_chunk_count_witness :
    (∃ bl, signTxChunks 401 [44] (List.replicate 400 1) 0 0 = some bl ∧
      bl.length = (400 + (1 + 1 * 4) + 149) / 150) ∧
    (∃ bl, sendChunksLoop 301 [44] (List.replicate 300 1) 0 = some bl ∧
      bl.length = (300 + (1 + 1 * 4 + 4) + 254) / 255) ∧
    (∃ bl, loadChunks 481 (List.replicate 480 1) 0 = some bl ∧
      bl.length = (480 + 239) / 240) ∧
    signTxChunks 2 [44] (List.replicate 200 1) 100 0 =
      some [(0x00, pathHeader [44] ++
        ((List.replicate 200 1).drop 0).take ((List.replicate 200 1).length - 0))] := by
  have h := claim_C2_chunk_count [44] (List.replicate 400 1) (List.replicate 300 1)
    (List.replicate 480 1) 0 (by decide) (by decide)
  have h2 := claim_C2_chunk_count [44] (List.replicate 200 1) [] [] 100
    (by decide) (by decide)
  refine ⟨h.1 (by simp) 401 (by simp), h.2.1 (by simp) 301 (by simp),
    h.2.2.1 481 (by simp), ?_⟩
  have := h2.2.2.2.2 0 2 (by omega) (by simp) (by omega) (by simp)
  simpa using this

/-- C6 counterexample: the claim says personal-message signing chunks under a
150-byte per-exchange budget, but Commands.sendChunks budgets 255: a 200-byte
message with a 1-index path goes out as a single 209-byte exchange (1 path
header byte, 4 path bytes, 4 length bytes, 200 payload bytes), exceeding 150. -/
theorem claim_C6_personal_message_budget_counterexample :
    (sendChunksLoop 201 [44] (List.replicate 200 7) 0).map
        (fun bl => bl.map (fun pb => (pb.1, pb.2.length))) = some [(0, 209)] ∧
      ¬ (209 : Nat) ≤ 150 := by
  refine ⟨rfl, by decide⟩

/-- C6 (amended: the per-exchange budget is 255, not 150): personal-message
signing via sendChunks sends a first exchange carrying the path header and a
4-byte big-endian total-length field followed by at most 255-1-4n-4 payload
bytes, the whole buffer within 255 bytes, and every subsequent exchange is a
continuation (p1 = 0x80) of at most the full 255-byte budget. -/
theorem claim_C6_personal_message_chunks (paths message : List Nat) (fuel : Nat)
    (hn : paths.length ≤ 62) (hL : 1 ≤ message.length)
    (hfuel : message.length + 1 ≤ fuel) :
    ∃ rest, sendChunksLoop fuel paths message 0 =
        some ((0x00, pathHeader paths ++ asUInt32BE message.length ++
          message.take (min (255 - 1 - paths.length * 4 - 4) message.length)) :: rest) ∧
      (pathHeader paths ++ asUInt32BE message.length ++
        message.take (min (255 - 1 - paths.length * 4 - 4) message.length)).length ≤ 255 ∧
      ∀ pb ∈ rest, pb.1 = 0x80 ∧ pb.2.length ≤ 255 := by
  obtain ⟨rest, h1, _, h3⟩ := sendChunksLoop_spec paths message fuel hn hL hfuel
  refine ⟨rest, h1, ?_, h3⟩
  simp only [List.length_append, pathHeader_length, asUInt32BE, List.length_cons,
    List.length_nil, List.length_take]
  omega

/-- C6 witness: a 3-byte message on a 1-index path fits in the first exchange. -/
theorem claim_C6_personal_message_chunks_witness :
    ([44] : List Nat).length ≤ 62 ∧ 1 ≤ ([1, 2, 3] : List Nat).length ∧
    ∃ rest, sendChunksLoop 4 [44] [1, 2, 3] 0 =
        some ((0x00, pathHeader [44] ++ asUInt32BE ([1, 2, 3] : List Nat).length ++
          ([1, 2, 3] : List Nat).take
            (min (255 - 1 - ([44] : List Nat).length * 4 - 4)
              ([1, 2, 3] : List Nat).length)) :: rest) ∧
      (pathHeader [44] ++ asUInt32BE ([1, 2, 3] : List Nat).length ++
        ([1, 2, 3] : List Nat).take
          (min (255 - 1 - ([44] : List Nat).length * 4 - 4)
            ([1, 2, 3] : List Nat).length)).length ≤ 255 ∧
      ∀ pb ∈ rest, pb.1 = 0x80 ∧ pb.2.length ≤ 255 :=
  ⟨by decide, by decide,
    claim_C6_personal_message_chunks [44] [1, 2, 3] 4 (by decide) (by decide) (by decide)⟩

/-- C10: for every derivation path of at most 62 indices, every buffer the
chunked senders sendChunks, signPSBT and load pass to Transport.send has
length at most 255, so send's data-too-large branch is unreachable from these
operations: send with such a buffer always performs its raw exchange. -/
theorem claim_C10_chunked_buffers_fit (paths message psbt data : List Nat)
    (hn : paths.length ≤ 62) :
    (∀ fuel offset bl, sendChunksLoop fuel paths message offset = some bl →
      ∀ pb ∈ bl, pb.2.length ≤ 255) ∧
    (∀ fuel offset bl, signPSBTChunks fuel psbt offset = some bl →
      ∀ pb ∈ bl, pb.2.length ≤ 255) ∧
    (∀ fuel offset bl, loadChunks fuel data offset = some bl →
      ∀ pb ∈ bl, pb.2.length ≤ 255) ∧
    (∀ (b : List Nat), b.length ≤ 255 → ∀ cla ins p1 p2 statusList exchange,
      (send cla ins p1 p2 b statusList exchange).2 = [sendApdu cla ins p1 p2 b]) := by
  refine ⟨sendChunksLoop_bound paths message hn, signPSBTChunks_bound psbt,
    loadChunks_bound data, ?_⟩
  intro b hb cla ins p1 p2 statusList exchange
  have hnot : ¬ b.length ≥ 256 := by omega
  simp only [send, if_neg hnot]
  cases hr : readUInt16BE (exchange (sendApdu cla ins p1 p2 b))
      ((exchange (sendApdu cla ins p1 p2 b)).length - 2) with
  | none => rfl
  | some sw =>
    by_cases hmem : statusList.any (fun s => s == sw) <;> simp [hmem]

/-! ## EIP-712 traversal lemmas -/

theorem mapM_congr {α β : Type} (l : List α) (f g : α → Option β)
    (h : ∀ x ∈ l, f x = g x) : l.mapM f = l.mapM g := by
  induction l with
  | nil => rfl
  | cons a t ih =>
    simp only [List.mapM_cons]
    rw [h a (by simp), ih (fun x hx => h x (by simp [hx]))]

-- List.lookup is invariant under permutation when the keys are duplicate-free.
theorem lookup_eq_of_perm_nodup (name : String) :
    ∀ {l1 l2 : List (String × String)}, l1.Perm l2 →
      (l1.map Prod.fst).Nodup → l1.lookup name = l2.lookup name := by
  intro l1 l2 hperm
  induction hperm with
  | nil =>
    intro _
    rfl
  | cons x hp ih =>
    intro hnodup
    obtain ⟨k, v⟩ := x
    simp only [List.map_cons, List.nodup_cons] at hnodup
    cases hk : name == k
    · simp only [List.lookup, hk]
      exact ih hnodup.2
    · simp only [List.lookup, hk]
  | swap x y l =>
    intro hnodup
    obtain ⟨k1, v1⟩ := x
    obtain ⟨k2, v2⟩ := y
    simp only [List.map_cons, List.nodup_cons, List.mem_cons] at hnodup
    have hne : k2 ≠ k1 := fun hcontra => hnodup.1 (Or.inl hcontra)
    cases hk1 : name == k1 <;> cases hk2 : name == k2 <;>
      simp only [List.lookup, hk1, hk2]
    exfalso
    have e1 : name = k1 := by simpa using hk1
    have e2 : name = k2 := by simpa using hk2
    exact hne (by rw [← e2, ← e1])
  | trans hp1 hp2 ih1 ih2 =>
    intro hnodup
    rw [ih1 hnodup, ih2 (((hp1.map Prod.fst).nodup_iff).mp hnodup)]

theorem lookup_reverse_eq_of_perm_nodup (name : String) (f1 f2 : List (String × String))
    (hperm : f1.Perm f2) (hnodup : (f1.map Prod.fst).Nodup) :
    f1.reverse.lookup name = f2.reverse.lookup name := by
  apply lookup_eq_of_perm_nodup
  · exact (f1.reverse_perm).trans (hperm.trans f2.reverse_perm.symm)
  · rw [List.map_reverse]
    exact List.nodup_reverse.mpr hnodup

-- Permuting each type's duplicate-free field list leaves the field-type
-- lookup of the typesMap unchanged.
theorem lookupFieldType_congr (types1 types2 : List (String × List (String × String)))
    (h : List.Forall₂ (fun t1 t2 => t1.1 = t2.1 ∧ t1.2.Perm t2.2 ∧ (t1.2.map Prod.fst).Nodup)
      types1 types2) (tyName fieldName : String) :
    lookupFieldType types1 tyName fieldName = lookupFieldType types2 tyName fieldName := by
  induction h with
  | nil => rfl
  | cons h1 h2 ih =>
    rename_i a b l1 l2
    obtain ⟨n1, fl1⟩ := a
    obtain ⟨n2, fl2⟩ := b
    obtain ⟨hname, hperm, hnodup⟩ := h1
    simp only at hname
    subst hname
    simp only [lookupFieldType]
    cases hk : tyName == n1
    · simp only [List.lookup, hk]
      exact ih
    · simp only [List.lookup, hk]
      exact lookup_reverse_eq_of_perm_nodup fieldName fl1 fl2 hperm hnodup

-- The traversal depends on the type definitions only through the typesMap
-- lookups.
theorem recursiveFieldStructImplem_congr
    (types1 types2 : List (String × List (String × String)))
    (h : ∀ tyName fieldName,
      lookupFieldType types1 tyName fieldName = lookupFieldType types2 tyName fieldName)
    (filters : Option MessageFilters) :
    ∀ fuel dt data path,
      recursiveFieldStructImplem types1 filters fuel dt data path =
        recursiveFieldStructImplem types2 filters fuel dt data path := by
  intro fuel
  induction fuel with
  | zero =>
    intro dt data path
    rfl
  | succ fuel ih =>
    intro dt data path
    obtain ⟨td, arrSizes⟩ := dt
    have hsnd : ∀ (d : EData),
        ((entriesOf d).mapM (fun fv =>
          match lookupFieldType types1 td.name fv.1 with
          | some fieldType =>
            recursiveFieldStructImplem types1 filters fuel
              (destructTypeFromString fieldType) fv.2 (path ++ "." ++ fv.1)
          | none => pure [])) =
        ((entriesOf d).mapM (fun fv =>
          match lookupFieldType types2 td.name fv.1 with
          | some fieldType =>
            recursiveFieldStructImplem types2 filters fuel
              (destructTypeFromString fieldType) fv.2 (path ++ "." ++ fv.1)
          | none => pure [])) := by
      intro d
      apply mapM_congr
      intro fv _
      have hfv := h td.name fv.1
      cases hl1 : lookupFieldType types1 td.name fv.1 with
      | none =>
        rw [hl1] at hfv
        rw [← hfv]
      | some ft =>
        rw [hl1] at hfv
        rw [← hfv]
        exact ih (destructTypeFromString ft) fv.2 (path ++ "." ++ fv.1)
    cases data with
    | arr elems =>
      cases arrSizes with
      | cons c rest =>
        simp only [recursiveFieldStructImplem]
        rw [mapM_congr _ _ _ (fun x _ => ih (td, rest) x (path ++ ".[]"))]
      | nil =>
        simp only [recursiveFieldStructImplem]
        by_cases hc : EIP712_TYPE_PROPERTIES.contains (toUpperStr td.name)
        · rw [if_neg (by simpa using hc), if_neg (by simpa using hc)]
        · rw [if_pos (by simpa using hc), if_pos (by simpa using hc)]
          rw [hsnd (.arr elems)]
    | obj entries =>
      simp only [recursiveFieldStructImplem]
      by_cases hc : EIP712_TYPE_PROPERTIES.contains (toUpperStr td.name)
      · rw [if_neg (by simpa using hc), if_neg (by simpa using hc)]
      · rw [if_pos (by simpa using hc), if_pos (by simpa using hc)]
        rw [hsnd (.obj entries)]
    | prim v =>
      simp only [recursiveFieldStructImplem]
      by_cases hc : EIP712_TYPE_PROPERTIES.contains (toUpperStr td.name)
      · rw [if_neg (by simpa using hc), if_neg (by simpa using hc)]
      · rw [if_pos (by simpa using hc), if_pos (by simpa using hc)]
        rw [hsnd (.prim v)]

/-- C7 counterexample: two logically-equal messages (their entry lists are
permutations) with differently ordered object keys produce differently ordered
field-record sequences, because the traversal iterates Object.entries of the
input data, not the type declaration. -/
theorem claim_C7_traversal_determinism_counterexample :
    ([("a", EData.prim "x"), ("b", EData.prim "y")].Perm
      [("b", EData.prim "y"), ("a", EData.prim "x")]) ∧
    recursiveFieldStructImplem [("Mail", [("a", "string"), ("b", "string")])] none 3
        (destructTypeFromString "Mail")
        (.obj [("a", .prim "x"), ("b", .prim "y")]) "" =
      some [.fieldRec (.prim "x") "string" none, .fieldRec (.prim "y") "string" none] ∧
    recursiveFieldStructImplem [("Mail", [("a", "string"), ("b", "string")])] none 3
        (destructTypeFromString "Mail")
        (.obj [("b", .prim "y"), ("a", .prim "x")]) "" =
      some [.fieldRec (.prim "y") "string" none, .fieldRec (.prim "x") "string" none] ∧
    recursiveFieldStructImplem [("Mail", [("a", "string"), ("b", "string")])] none 3
        (destructTypeFromString "Mail")
        (.obj [("a", .prim "x"), ("b", .prim "y")]) "" ≠
      recursiveFieldStructImplem [("Mail", [("a", "string"), ("b", "string")])] none 3
        (destructTypeFromString "Mail")
        (.obj [("b", .prim "y"), ("a", .prim "x")]) "" := by
  refine ⟨List.Perm.swap _ _ _, rfl, rfl, ?_⟩
  intro hcontra
  have h1 : recursiveFieldStructImplem [("Mail", [("a", "string"), ("b", "string")])] none 3
      (destructTypeFromString "Mail") (.obj [("a", .prim "x"), ("b", .prim "y")]) "" =
      some [.fieldRec (.prim "x") "string" none, .fieldRec (.prim "y") "string" none] := rfl
  have h2 : recursiveFieldStructImplem [("Mail", [("a", "string"), ("b", "string")])] none 3
      (destructTypeFromString "Mail") (.obj [("b", .prim "y"), ("a", .prim "x")]) "" =
      some [.fieldRec (.prim "y") "string" none, .fieldRec (.prim "x") "string" none] := rfl
  rw [h1, h2] at hcontra
  simp only [Option.some.injEq, List.cons.injEq, StructRecord.fieldRec.injEq,
    EData.prim.injEq] at hcontra
  exact absurd hcontra.1.1 (by decide)

/-- C7 (amended: the traversal visits the fields of a composite value in
input-object entry order, restricted to the declared fields; the declaration
order inside the type definition is immaterial): permuting each type's
duplicate-free field list produces an identical record sequence for every
message, so two logically-equal messages produce byte-identical sequences if
and only if their objects list the fields in the same entry order. -/
theorem claim_C7_traversal_determinism
    (types1 types2 : List (String × List (String × String)))
    (h : List.Forall₂ (fun t1 t2 => t1.1 = t2.1 ∧ t1.2.Perm t2.2 ∧ (t1.2.map Prod.fst).Nodup)
      types1 types2)
    (filters : Option MessageFilters) (fuel : Nat)
    (dt : TypeDescription × List (Option Nat)) (data : EData) (path : String) :
    recursiveFieldStructImplem types1 filters fuel dt data path =
      recursiveFieldStructImplem types2 filters fuel dt data path :=
  recursiveFieldStructImplem_congr types1 types2
    (fun tyName fieldName => lookupFieldType_congr types1 types2 h tyName fieldName)
    filters fuel dt data path

/-- C7 witness: permuting the declaration order of the Mail type's fields
leaves the traversal output unchanged on a concrete message. -/
theorem claim_C7_traversal_determinism_witness :
    (List.Forall₂ (fun t1 t2 => t1.1 = t2.1 ∧ t1.2.Perm t2.2 ∧ (t1.2.map Prod.fst).Nodup)
      [("Mail", [("a", "string"), ("b", "string")])]
      [("Mail", [("b", "string"), ("a", "string")])]) ∧
    recursiveFieldStructImplem [("Mail", [("a", "string"), ("b", "string")])] none 3
        (destructTypeFromString "Mail") (.obj [("a", .prim "x"), ("b", .prim "y")]) "" =
      recursiveFieldStructImplem [("Mail", [("b", "string"), ("a", "string")])] none 3
        (destructTypeFromString "Mail") (.obj [("a", .prim "x"), ("b", .prim "y")]) "" := by
  have hf : List.Forall₂
      (fun t1 t2 => t1.1 = t2.1 ∧ t1.2.Perm t2.2 ∧ (t1.2.map Prod.fst).Nodup)
      [("Mail", [("a", "string"), ("b", "string")])]
      [("Mail", [("b", "string"), ("a", "string")])] := by
    refine List.Forall₂.cons ⟨rfl, List.Perm.swap _ _ _, by decide⟩ List.Forall₂.nil
  exact ⟨hf, claim_C7_traversal_determinism _ _ hf none 3 _ _ _⟩

/-- C9: at the failing input (an encoded value of 254 bytes, so a 256-byte
length-prefixed record), the transmitter sends a single slice flagged complete
whose contents are only the first 255 bytes of the record: the slice count
Math.ceil(len/256) with 255-byte slices drops the record's last byte, so the
concatenation of the sent slices is not the entire record. -/
theorem claim_C9_field_record_split :
    (sendStructImplemField (List.replicate 254 7)).map (fun pb => (pb.1, pb.2.length)) =
      [(0x00, 255)] ∧
    (sendStructImplemField (List.replicate 254 7)).flatMap (fun pb => pb.2) =
      ([0, 254] ++ List.replicate 254 7).take 255 ∧
    (sendStructImplemField (List.replicate 254 7)).flatMap (fun pb => pb.2) ≠
      [0, 254] ++ List.replicate 254 7 := by
  refine ⟨by decide, by decide, by decide⟩

/-- C10 witness: concrete instances of each sender stay within 255 bytes and
send performs its exchange. -/
theorem claim_C10_chunked_buffers_fit_witness :
    ([44] : List Nat).length ≤ 62 ∧
    (∀ bl, sendChunksLoop 301 [44] (List.replicate 300 1) 0 = some bl →
      ∀ pb ∈ bl, pb.2.length ≤ 255) ∧
    (send 0xe0 0x0e 0 0 (List.replicate 255 1) defaultStatusList (fun _ => [0x90, 0x00])).2 =
      [sendApdu 0xe0 0x0e 0 0 (List.replicate 255 1)] := by
  have h := claim_C10_chunked_buffers_fit [44] (List.replicate 300 1) [] [] (by decide)
  exact ⟨by decide, fun bl hbl => h.1 301 0 bl hbl,
    h.2.2.2 (List.replicate 255 1) (by simp) 0xe0 0x0e 0 0 defaultStatusList
      (fun _ => [0x90, 0x00])⟩

end Shell
